import Mathlib

/-
Verification development for the argocd-helm-template repository.

The development embeds the validation and reference-resolution core of the
tool:

  * src/argocd_helm_template/argocd_application.py
      class ArgocdApplication: construction-time structure checks,
      typed accessors and the ordered validate() routine;
  * src/argocd_helm_template/ref_mapper.py
      build_ref_mapping and apply_ref_mapping_to_value_files;
  * src/argocd_helm_template/__init__.py
      compute_helm_args, the argument builder;
  * src/git_helper.py
      resolve_git_root is a subprocess interaction with git; it is
      represented here by its outcome (either the resolved repository
      root or the failure message), passed as an explicit parameter.

Two layers model the data. A raw YAML layer (the Yaml inductive) embeds the
construction-time structure checks of ArgocdApplication.__init__ and
_validate_structure, which operate on untyped dictionaries. A typed layer
(structures HelmConfig, Source, AppMetadata, ArgocdApplication) embeds the
post-construction state on which validate() and compute_helm_args operate,
with every field optional exactly as the corresponding dictionary key is
optional in the source. Python error raising is modelled with Except;
machine strings are Lean String values.
-/

/-- Byte-order comparison of characters by code point, as Python compares
the characters of strings. -/
def charLeB (a b : Char) : Bool := decide (a.toNat ≤ b.toNat)

/-- Lexicographic comparison of character lists by code point, the order
Python sorted() uses on strings. -/
def strLeDataB : List Char → List Char → Bool
  | [], _ => true
  | _ :: _, [] => false
  | a :: as, b :: bs => if a = b then strLeDataB as bs else decide (a.toNat < b.toNat)

/-- Lexicographic comparison of strings by code point. -/
def strLeB (a b : String) : Bool := strLeDataB a.data b.data

/-- Insertion step of the sort used to model Python sorted(). -/
def insertSorted (x : String) : List String → List String
  | [] => [x]
  | y :: ys => if strLeB x y then x :: y :: ys else y :: insertSorted x ys

/-- Model of Python sorted() on a list of strings. -/
def sortStrs : List String → List String
  | [] => []
  | x :: xs => insertSorted x (sortStrs xs)

/-- Model of the Python idiom chr.join with separator comma-space, as in
", ".join(names). -/
def joinComma : List String → String
  | [] => ""
  | [x] => x
  | x :: y :: rest => x ++ ", " ++ joinComma (y :: rest)

/-- Check whether needle occurs as a contiguous run inside hay, the meaning
of the Python substring test. -/
def containsSubL (needle : List Char) : List Char → Bool
  | [] => needle.isPrefixOf []
  | c :: t => needle.isPrefixOf (c :: t) || containsSubL needle t

/-- String version of the substring test. -/
def containsSubStr (hay needle : String) : Bool := containsSubL needle.data hay.data

/-- Split a character list at the first slash, returning the parts before
and after it; none when no slash occurs. This models the Python call
value[1:].split(sep, 1) with sep the slash, which yields two parts exactly
when a slash is present. -/
def splitFirst : List Char → Option (List Char × List Char)
  | [] => none
  | c :: rest =>
    if c = '/' then some ([], rest)
    else (splitFirst rest).map (fun p => (c :: p.1, p.2))

/-- Model of the pathlib join operator used as ref_mapping[ref_name] /
relative_path: an absolute right operand replaces the left one, an empty
operand is absorbed, and otherwise a single slash separates the two. -/
def pathJoin (base rel : String) : String :=
  if base = "" then rel
  else if rel = "" then base
  else if rel.data.head? = some '/' then rel
  else if base.data.getLast? = some '/' then base ++ rel
  else base ++ "/" ++ rel

/-- Model of assignment into a Python dict of strings: an existing key keeps
its position and receives the new value, a new key is appended. -/
def dictInsert (m : List (String × String)) (k v : String) : List (String × String) :=
  if m.any (fun p => p.1 = k) then m.map (fun p => if p.1 = k then (k, v) else p)
  else m ++ [(k, v)]

/-- Rendering of a Python list of ints inside an f-string, as in the
multiple-charts message. -/
def fmtNatList (idxs : List Nat) : String :=
  "[" ++ joinComma (idxs.map toString) ++ "]"

/-- Untyped YAML values as produced by yaml.safe_load: the raw input of
ArgocdApplication.__init__. -/
inductive Yaml
  | null
  | bool (b : Bool)
  | str (s : String)
  | num (n : Int)
  | arr (xs : List Yaml)
  | dict (kvs : List (String × Yaml))

/-- Test for a YAML sequence, the meaning of isinstance(v, list). -/
def Yaml.isArr : Yaml → Bool
  | .arr _ => true
  | _ => false

/-- Test for a YAML mapping, the meaning of isinstance(v, dict). -/
def Yaml.isDict : Yaml → Bool
  | .dict _ => true
  | _ => false

/-- Python exception kinds that the construction path of ArgocdApplication
can raise. -/
inductive PyErr
  | valueError (msg : String)
  | typeError (msg : String)
  | attributeError (msg : String)

/-- Model of the Python membership test key in value: key lookup on a dict,
element equality on a list, substring on a string, TypeError otherwise. -/
def pyIn (key : String) : Yaml → Except PyErr Bool
  | .dict kvs => .ok ((kvs.lookup key).isSome)
  | .arr xs => .ok (xs.any (fun y => match y with | .str s => s = key | _ => false))
  | .str s => .ok (containsSubL key.data s.data)
  | _ => .error (.typeError "argument of type is not iterable")

/-- Model of assignment into a Python dict of YAML values, as dictInsert. -/
def dictSetY (kvs : List (String × Yaml)) (k : String) (v : Yaml) : List (String × Yaml) :=
  if kvs.any (fun p => p.1 = k) then kvs.map (fun p => if p.1 = k then (k, v) else p)
  else kvs ++ [(k, v)]

/-- Model of ArgocdApplication.__init__ together with _validate_structure:
checks that the document is a mapping with a spec section holding a source
collection, normalizes a legacy singular source entry into the plural list,
and returns the normalized document. Follows
src/argocd_helm_template/argocd_application.py lines 20 to 59. -/
def mkArgocdApplication (d : Yaml) : Except PyErr Yaml :=
  match d with
  | .dict kvs =>
    if (kvs.lookup "spec").isNone then
      .error (.valueError "Invalid application.yaml: missing \x27spec\x27 section")
    else
      let spec := (kvs.lookup "spec").getD (.dict [])
      match pyIn "sources" spec, pyIn "source" spec with
      | .error e, _ => .error e
      | .ok _, .error e => .error e
      | .ok hasSources, .ok hasSource =>
        if !hasSources && !hasSource then
          .error (.valueError "Invalid application.yaml: missing \x27sources\x27 or \x27source\x27 in spec")
        else
          let norm : Except PyErr (List (String × Yaml)) :=
            if hasSource && !hasSources then
              match spec with
              | .dict skvs =>
                match skvs.lookup "source" with
                | some (.dict s) =>
                  .ok (dictSetY kvs "spec" (.dict (dictSetY skvs "sources" (.arr [.dict s]))))
                | _ => .error (.valueError "Invalid application.yaml: \x27source\x27 must be a dict")
              | _ => .error (.attributeError "object has no attribute get")
            else .ok kvs
          match norm with
          | .error e => .error e
          | .ok kvs1 =>
            match (kvs1.lookup "spec").getD (.dict []) with
            | .dict skvs1 =>
              match (skvs1.lookup "sources").getD (.arr []) with
              | .arr _ => .ok (.dict kvs1)
              | _ => .error (.valueError "Invalid application.yaml: \x27sources\x27 must be a list")
            | _ => .error (.attributeError "object has no attribute get")
  | _ => .error (.valueError "yaml_dict must be a dictionary")

/-- Helm configuration dictionary of a source, with each key optional as in
the YAML document. -/
structure HelmConfig where
  releaseName : Option String
  skipCrds : Option Bool
  valueFiles : Option (List String)

/-- One entry of spec.sources, with each key optional as in the document. -/
structure Source where
  repoURL : Option String
  chart : Option String
  path : Option String
  ref : Option String
  helm : Option HelmConfig

/-- The metadata section of the document. -/
structure AppMetadata where
  name : Option String

/-- Typed post-construction state of an ArgocdApplication: the kind field,
the metadata section and the normalized spec.sources list. -/
structure ArgocdApplication where
  kind : Option String
  metadata : Option AppMetadata
  sources : List Source

/-- Shape test for a Helm repository chart source: chart present, path and
ref absent (argocd_application.py lines 63 to 84). -/
def _is_helm_repo (s : Source) : Bool :=
  s.chart.isSome && s.path.isNone && s.ref.isNone

/-- Shape test for a Git-based Helm chart source: path and helm present,
chart and ref absent (argocd_application.py lines 116 to 139). -/
def _is_helm_git (s : Source) : Bool :=
  s.path.isSome && s.helm.isSome && s.chart.isNone && s.ref.isNone

/-- Shape test for a reference source: ref present, chart, path and helm
absent (argocd_application.py lines 141 to 166). -/
def _is_ref (s : Source) : Bool :=
  s.ref.isSome && s.chart.isNone && s.path.isNone && s.helm.isNone

/-- Accessor get_app_name: metadata.name with empty-string default. -/
def get_app_name (app : ArgocdApplication) : String :=
  match app.metadata with
  | some m => m.name.getD ""
  | none => ""

/-- Accessor get_chart_source: the first source carrying chart or path. -/
def get_chart_source (app : ArgocdApplication) : Option Source :=
  app.sources.find? (fun s => s.chart.isSome || s.path.isSome)

/-- Accessor get_helm_source: the first source carrying a helm section. -/
def get_helm_source (app : ArgocdApplication) : Option Source :=
  app.sources.find? (fun s => s.helm.isSome)

/-- Accessor get_all_ref_sources: the dict mapping each ref name to its
repoURL, built in source order, silently skipping entries whose name or URL
is missing or empty (argocd_application.py lines 251 to 269). -/
def get_all_ref_sources (app : ArgocdApplication) : List (String × String) :=
  app.sources.foldl
    (fun acc s =>
      match s.ref with
      | some ref_name =>
        let repo_url := s.repoURL.getD ""
        if ref_name ≠ "" ∧ repo_url ≠ "" then dictInsert acc ref_name repo_url else acc
      | none => acc)
    []

/-- Accessor get_helm_release_name: releaseName of the helm section of the
first helm-carrying source, empty string when unset. -/
def get_helm_release_name (app : ArgocdApplication) : String :=
  match get_helm_source app with
  | some s =>
    match s.helm with
    | some h => h.releaseName.getD ""
    | none => ""
  | none => ""

/-- Accessor get_helm_skip_crds: skipCrds flag with default false. -/
def get_helm_skip_crds (app : ArgocdApplication) : Bool :=
  match get_helm_source app with
  | some s =>
    match s.helm with
    | some h => h.skipCrds.getD false
    | none => false
  | none => false

/-- Accessor get_helm_value_files: the valueFiles list with default empty. -/
def get_helm_value_files (app : ArgocdApplication) : List String :=
  match get_helm_source app with
  | some s =>
    match s.helm with
    | some h => h.valueFiles.getD []
    | none => []
  | none => []

/-- Message of the kind check of validate(). -/
def kindMsg (kind : String) : String :=
  "Invalid resource kind: \x27Application\x27 expected, got \x27" ++ kind ++ "\x27"

/-- Message of the duplicate-ref check of validate(): the duplicated names,
sorted, after the comma join. -/
def dupRefMsg (dups : List String) : String :=
  "Duplicate ref sources found: " ++ joinComma (sortStrs dups)

/-- Message of the per-source shape check of validate(). -/
def invalidSourceMsg : String :=
  "Source is invalid: must be either a Helm chart (with \x27chart\x27 or \x27path\x27+\x27helm\x27) or a reference source (with \x27ref\x27)"

/-- Message of the no-chart check of validate(). -/
def noHelmMsg : String :=
  "Application does not use Helm: no Helm chart source found"

/-- Message of the multiple-charts check of validate(). -/
def multipleHelmMsg (idxs : List Nat) : String :=
  "Multiple Helm charts found: sources " ++ fmtNatList idxs ++
    " define Helm charts. Only one Helm chart per application is supported."

/-- Message of validate() for a value file naming an undeclared ref. -/
def undefinedRefMsg (vf ref_name : String) (keys : List String) : String :=
  "valueFile \x27" ++ vf ++ "\x27 references undefined ref \x27" ++ ref_name ++
    "\x27. Available refs: " ++ joinComma keys

/-- Message shared by validate() and the value-file resolver for an entry
with a dollar sign but no slash after the name. -/
def refPathExpectedMsg (vf : String) : String :=
  "Error: valueFile \x27" ++ vf ++ "\x27, ref/path expected but not found"

/-- Message of validate() for a value file without the dollar marker while
ref sources are declared. -/
def mustUseRefMsg (vf : String) : String :=
  "valueFile \x27" ++ vf ++ "\x27 must use ref prefix (e.g., $ref_name/path) when ref sources are defined"

/-- Message of the value-file resolver for a ref name absent from the
mapping (ref_mapper.py line 75). -/
def refNotFoundMsg (ref_name vf : String) : String :=
  "Error: Ref \x27" ++ ref_name ++ "\x27 in valueFile \x27" ++ vf ++ "\x27 not found in mapping"

/-- Message of the value-file resolver for an entry without the dollar
marker (ref_mapper.py line 79). -/
def shouldStartMsg (vf : String) : String :=
  "Error: valueFile \x27" ++ vf ++ "\x27, should start with mapping"

/-- Message of build_ref_mapping when several ref sources exist and no
override was given (ref_mapper.py lines 37 to 40). -/
def multipleRefSourcesMsg (names : List String) : String :=
  "Error: Multiple ref sources found (" ++ joinComma names ++
    ") but no --ref-map provided. Please specify --ref-map to map each ref to a local path (e.g., --ref-map values=/path/to/values --ref-map other=/path/to/other)"

/-- Shapes a value-file entry can take under the dollar-name-slash-path
syntax. -/
inductive EntryShape
  | noDollar
  | noSlash
  | refPath (ref_name relative_path : String)

/-- Classification of a value-file entry as performed by both validate()
and the resolver: a leading dollar sign, then a split at the first slash. -/
def classifyEntry (vf : String) : EntryShape :=
  match vf.data with
  | '$' :: rest =>
    match splitFirst rest with
    | some p => .refPath (String.mk p.1) (String.mk p.2)
    | none => .noSlash
  | _ => .noDollar

/-- Ref names of all sources carrying a ref key, in order, as collected on
line 335 of argocd_application.py. -/
def refNamesOf (app : ArgocdApplication) : List String :=
  (app.sources.filter (fun s => s.ref.isSome)).map (fun s => s.ref.getD "")

/-- The per-source scan of validate() (lines 352 to 364): collects the
indices of chart-bearing sources and stops at the first source that is
neither a chart nor a reference. -/
def scanSources : List Source → Nat → Except String (List Nat)
  | [], _ => .ok []
  | s :: rest, i =>
    if _is_helm_repo s || _is_helm_git s then
      match scanSources rest (i + 1) with
      | .ok idxs => .ok (i :: idxs)
      | .error e => .error e
    else if _is_ref s then scanSources rest (i + 1)
    else .error invalidSourceMsg

/-- The per-entry value-file check of validate() (lines 383 to 401). -/
def checkValueFile (ref_keys : List String) (vf : String) : Except String Unit :=
  match classifyEntry vf with
  | .refPath ref_name _ =>
    if ref_keys.contains ref_name then .ok ()
    else .error (undefinedRefMsg vf ref_name ref_keys)
  | .noSlash => .error (refPathExpectedMsg vf)
  | .noDollar => .error (mustUseRefMsg vf)

/-- The value-file loop of validate(): stops at the first failing entry. -/
def checkValueFiles (ref_keys : List String) : List String → Except String Unit
  | [] => .ok ()
  | vf :: rest =>
    match checkValueFile ref_keys vf with
    | .ok _ => checkValueFiles ref_keys rest
    | .error e => .error e

/-- Model of ArgocdApplication.validate() (argocd_application.py lines 319
to 401), raising modelled as returning an error value. -/
def validate (app : ArgocdApplication) : Except String Unit :=
  let kind := app.kind.getD ""
  if kind ≠ "Application" then .error (kindMsg kind)
  else
    let ref_names := refNamesOf app
    if ref_names.dedup.length ≠ ref_names.length then
      .error (dupRefMsg ((ref_names.filter (fun r => 2 ≤ ref_names.count r)).dedup))
    else
      match scanSources app.sources 0 with
      | .error e => .error e
      | .ok helm_source_indices =>
        if helm_source_indices.length = 0 then .error noHelmMsg
        else if 1 < helm_source_indices.length then .error (multipleHelmMsg helm_source_indices)
        else
          let value_files := get_helm_value_files app
          let ref_sources := get_all_ref_sources app
          if ref_sources ≠ [] ∧ value_files ≠ [] then
            checkValueFiles (ref_sources.map Prod.fst) value_files
          else .ok ()

/-- State-passing rendering of validate(): the object state is threaded
through every step of the routine and returned next to the outcome. Every
statement of the source method only reads the object, so each step passes
the state on unchanged. -/
def validateSt (app : ArgocdApplication) : Except String Unit × ArgocdApplication :=
  let st := app
  let kind := st.kind.getD ""
  if kind ≠ "Application" then (.error (kindMsg kind), st)
  else
    let ref_names := refNamesOf st
    if ref_names.dedup.length ≠ ref_names.length then
      (.error (dupRefMsg ((ref_names.filter (fun r => 2 ≤ ref_names.count r)).dedup)), st)
    else
      match scanSources st.sources 0 with
      | .error e => (.error e, st)
      | .ok helm_source_indices =>
        if helm_source_indices.length = 0 then (.error noHelmMsg, st)
        else if 1 < helm_source_indices.length then (.error (multipleHelmMsg helm_source_indices), st)
        else
          let value_files := get_helm_value_files st
          let ref_sources := get_all_ref_sources st
          if ref_sources ≠ [] ∧ value_files ≠ [] then
            (checkValueFiles (ref_sources.map Prod.fst) value_files, st)
          else (.ok (), st)

/-- Model of build_ref_mapping (ref_mapper.py lines 8 to 46). The git_root
parameter carries the outcome of resolve_git_root on the working directory:
the repository root on success, the not-in-a-repository message otherwise. -/
def build_ref_mapping (ref_sources : List (String × String))
    (git_root : Except String String)
    (ref_map_override : List (String × String)) : Except String (List (String × String)) :=
  match ref_sources with
  | [] => .ok []
  | p :: rest =>
    if ref_map_override ≠ [] then
      .ok (ref_map_override.foldl (fun m kv => dictInsert m kv.1 kv.2) [])
    else if rest ≠ [] then
      .error (multipleRefSourcesMsg ((p :: rest).map Prod.fst))
    else
      match git_root with
      | .error e => .error e
      | .ok root => .ok [(p.1, root)]

/-- Model of apply_ref_mapping_to_value_files (ref_mapper.py lines 49 to
81): resolves each entry in order, stopping at the first failure. -/
def apply_ref_mapping_to_value_files :
    List String → List (String × String) → Except String (List String)
  | [], _ => .ok []
  | vf :: rest, ref_mapping =>
    match classifyEntry vf with
    | .refPath ref_name relative_path =>
      match ref_mapping.lookup ref_name with
      | some base =>
        match apply_ref_mapping_to_value_files rest ref_mapping with
        | .ok tailPaths => .ok (pathJoin base relative_path :: tailPaths)
        | .error e => .error e
      | none => .error (refNotFoundMsg ref_name vf)
    | .noSlash => .error (refPathExpectedMsg vf)
    | .noDollar => .error (shouldStartMsg vf)

/-- Model of compute_helm_args (src/argocd_helm_template/__init__.py lines
45 to 110). The git_root parameter carries the outcome of resolve_git_root
as for build_ref_mapping; the ClickException wrapping keeps the message of
the wrapped error, so errors propagate as their message strings. -/
def compute_helm_args (app : ArgocdApplication) (git_root : Except String String)
    (ref_map_override : List (String × String)) : Except String (List String) :=
  match validate app with
  | .error e => .error ("Validated ArgoCD application expected: " ++ e)
  | .ok _ =>
    let release_name :=
      if get_helm_release_name app ≠ "" then get_helm_release_name app else get_app_name app
    let args := ["--release-name", release_name]
    let args := if get_helm_skip_crds app then args ++ ["--skip-crds"] else args
    let ref_sources := get_all_ref_sources app
    match build_ref_mapping ref_sources git_root ref_map_override with
    | .error e => .error e
    | .ok ref_mapping =>
      let value_files_list := get_helm_value_files app
      match
        (match value_files_list with
         | [] => Except.ok []
         | _ => apply_ref_mapping_to_value_files value_files_list ref_mapping) with
      | .error e => .error e
      | .ok values_files => .ok (args ++ values_files.flatMap (fun f => ["-f", f]))

/-- Chart-bearing shape from the specification table: a Helm repository
chart (chart without path or ref) or a Git chart (path plus helm without
chart or ref). -/
def chart_bearing (s : Source) : Bool := _is_helm_repo s || _is_helm_git s

/-- Rule 1 of the specification order for validate(): kind differs from
Application. -/
abbrev rule_kind_invalid (app : ArgocdApplication) : Prop :=
  app.kind.getD "" ≠ "Application"

/-- Rule 2: duplicate ref names among the sources carrying a ref field. -/
abbrev rule_duplicate_refs (app : ArgocdApplication) : Prop :=
  (refNamesOf app).dedup.length ≠ (refNamesOf app).length

/-- Rule 3: some source matches neither a chart shape nor the reference
shape. -/
abbrev rule_invalid_source (app : ArgocdApplication) : Prop :=
  ∃ s ∈ app.sources, chart_bearing s = false ∧ _is_ref s = false

/-- Rule 4: no chart-bearing source exists. -/
abbrev rule_no_chart (app : ArgocdApplication) : Prop :=
  (app.sources.filter chart_bearing).length = 0

/-- Rule 5: more than one chart-bearing source exists. -/
abbrev rule_multiple_charts (app : ArgocdApplication) : Prop :=
  1 < (app.sources.filter chart_bearing).length

/-- Declared ref names available to value files, in declaration order. -/
def ref_keys (app : ArgocdApplication) : List String :=
  (get_all_ref_sources app).map Prod.fst

/-- A well-formed value-file entry under declared ref keys: a dollar sign,
then a declared name, then a slash and a relative path. -/
def good_entry (keys : List String) (vf : String) : Bool :=
  match classifyEntry vf with
  | .refPath n _ => keys.contains n
  | _ => false

/-- Rule 6: ref sources exist, value files exist, and some entry violates
the symbolic-reference syntax or names an undeclared ref. -/
abbrev rule_value_files_inconsistent (app : ArgocdApplication) : Prop :=
  get_all_ref_sources app ≠ [] ∧ get_helm_value_files app ≠ [] ∧
    ∃ vf ∈ get_helm_value_files app, good_entry (ref_keys app) vf = false

/-- Error message a single violating value-file entry produces. -/
def vfViolationMsg (keys : List String) (vf : String) : String :=
  match classifyEntry vf with
  | .refPath n _ => undefinedRefMsg vf n keys
  | .noSlash => refPathExpectedMsg vf
  | .noDollar => mustUseRefMsg vf

/-- Message of the first violating value-file entry, if any. -/
def firstBadVfMsg (keys : List String) (vfs : List String) : String :=
  match vfs.find? (fun vf => !(good_entry keys vf)) with
  | some vf => vfViolationMsg keys vf
  | none => ""

/-- Indices of the chart-bearing sources, counting from the given start. -/
def chartIdxs : List Source → Nat → List Nat
  | [], _ => []
  | s :: rest, i =>
    if chart_bearing s then i :: chartIdxs rest (i + 1) else chartIdxs rest (i + 1)

/-- The specification-side rendering of validate(): the six rules checked
independently in the stated priority order, the first violated one
reported. -/
def validateSpec (app : ArgocdApplication) : Except String Unit :=
  if rule_kind_invalid app then .error (kindMsg (app.kind.getD ""))
  else if rule_duplicate_refs app then
    .error (dupRefMsg (((refNamesOf app).filter (fun r => 2 ≤ (refNamesOf app).count r)).dedup))
  else if rule_invalid_source app then .error invalidSourceMsg
  else if rule_no_chart app then .error noHelmMsg
  else if rule_multiple_charts app then .error (multipleHelmMsg (chartIdxs app.sources 0))
  else if rule_value_files_inconsistent app then
    .error (firstBadVfMsg (ref_keys app) (get_helm_value_files app))
  else .ok ()

/-- Release-name rule of the specification: the declared helm releaseName
when it is a non-empty string, the application name otherwise. -/
def release_name_rule (app : ArgocdApplication) : String :=
  if get_helm_release_name app ≠ "" then get_helm_release_name app else get_app_name app

/-- Resolved path of a well-formed value-file entry: the mapped base of its
ref name joined with its relative path. -/
def resolve_entry (ref_mapping : List (String × String)) (vf : String) : String :=
  match classifyEntry vf with
  | .refPath n r => pathJoin ((ref_mapping.lookup n).getD "") r
  | _ => ""

/-- Resolvability of one entry against a mapping: well-formed and with its
ref name present in the mapping. -/
def good_map_entry (ref_mapping : List (String × String)) (vf : String) : Bool :=
  match classifyEntry vf with
  | .refPath n _ => (ref_mapping.lookup n).isSome
  | _ => false

/-- Concrete application with one Helm repository chart source whose helm
section sets skipCrds, used to exercise the argument builder. -/
def appSkipCrds : ArgocdApplication :=
  ⟨some "Application", some ⟨some "x"⟩,
    [⟨some "https://charts.example.com", some "mychart", none, none,
      some ⟨none, some true, none⟩⟩]⟩

/-- Concrete application identical to appSkipCrds except that skipCrds is
absent. -/
def appPlain : ArgocdApplication :=
  ⟨some "Application", some ⟨some "x"⟩,
    [⟨some "https://charts.example.com", some "mychart", none, none,
      some ⟨none, none, none⟩⟩]⟩

/-- Concrete application with no ref sources whose valueFiles holds a
dollar entry without a slash. -/
def appNoSlashVf : ArgocdApplication :=
  ⟨some "Application", some ⟨some "x"⟩,
    [⟨some "https://charts.example.com", some "mychart", none, none,
      some ⟨none, none, some ["$x"]⟩⟩]⟩

/-- Concrete application with no ref sources whose valueFiles holds a plain
path. -/
def appPlainVf : ArgocdApplication :=
  ⟨some "Application", some ⟨some "x"⟩,
    [⟨some "https://charts.example.com", some "mychart", none, none,
      some ⟨none, none, some ["values.yaml"]⟩⟩]⟩

/-- Concrete application with one chart source, one ref source named
values, and one symbolic value file. -/
def appWithRef : ArgocdApplication :=
  ⟨some "Application", some ⟨some "x"⟩,
    [⟨some "https://charts.example.com", some "mychart", none, none,
      some ⟨none, none, some ["$values/a.yaml"]⟩⟩,
     ⟨some "https://git.example.com/values", none, none, some "values", none⟩]⟩

/-- Concrete application like appWithRef but whose value file names an
undeclared ref. -/
def appBadRefVf : ArgocdApplication :=
  ⟨some "Application", some ⟨some "x"⟩,
    [⟨some "https://charts.example.com", some "mychart", none, none,
      some ⟨none, none, some ["$other/a.yaml"]⟩⟩,
     ⟨some "https://git.example.com/values", none, none, some "values", none⟩]⟩

/-- A list extending another on the right keeps every left-hand start. -/
theorem isPrefixOf_append_extend (n x y : List Char) (h : n.isPrefixOf x = true) :
    n.isPrefixOf (x ++ y) = true := by
  have h2 : n <+: x := by simpa using h
  simpa using h2.trans (List.prefix_append x y)

/-- Every list starts with itself. -/
theorem isPrefixOf_self (x : List Char) : x.isPrefixOf x = true := by
  simp

/-- A start of the haystack is a substring of it. -/
theorem containsSubL_of_isPrefixOf (n h : List Char) (hp : n.isPrefixOf h = true) :
    containsSubL n h = true := by
  cases h with
  | nil => simpa [containsSubL] using hp
  | cons c t => simp [containsSubL, hp]

/-- A substring of the right part is a substring of the whole. -/
theorem containsSubL_append_right (n x y : List Char) (h : containsSubL n y = true) :
    containsSubL n (x ++ y) = true := by
  induction x with
  | nil => simpa using h
  | cons c t ih =>
    simp only [List.cons_append, containsSubL, Bool.or_eq_true]
    exact Or.inr ih

/-- A substring of the left part is a substring of the whole. -/
theorem containsSubL_append_left (n x y : List Char) (h : containsSubL n x = true) :
    containsSubL n (x ++ y) = true := by
  induction x with
  | nil =>
    cases n with
    | nil =>
      cases y with
      | nil => rfl
      | cons c t => simp [containsSubL, List.isPrefixOf]
    | cons a as => simp [containsSubL, List.isPrefixOf] at h
  | cons c t ih =>
    simp only [containsSubL, Bool.or_eq_true] at h
    rcases h with h | h
    · simp only [List.cons_append, containsSubL, Bool.or_eq_true]
      exact Or.inl (isPrefixOf_append_extend n (c :: t) y h)
    · simp only [List.cons_append, containsSubL, Bool.or_eq_true]
      exact Or.inr (ih h)

/-- Every member of a list occurs as a substring of its comma join. -/
theorem containsSubStr_joinComma (l : List String) (a : String) (h : a ∈ l) :
    containsSubStr (joinComma l) a = true := by
  induction l with
  | nil => cases h
  | cons x rest ih =>
    cases rest with
    | nil =>
      have hx : a = x := by simpa using h
      subst hx
      exact containsSubL_of_isPrefixOf a.data a.data (isPrefixOf_self a.data)
    | cons y t =>
      have hjoin : joinComma (x :: y :: t) = x ++ ", " ++ joinComma (y :: t) := rfl
      rw [hjoin]
      unfold containsSubStr
      rw [String.data_append, String.data_append]
      rcases List.mem_cons.mp h with hx | hmem
      · subst hx
        exact containsSubL_append_left _ _ _
          (containsSubL_append_left _ _ _
            (containsSubL_of_isPrefixOf a.data a.data (isPrefixOf_self a.data)))
      · have := ih hmem
        unfold containsSubStr at this
        exact containsSubL_append_right _ _ _ this


/-- The per-source scan of validate() stops with the shape-violation
message when some source has an invalid shape, and otherwise returns the
chart-bearing indices counted from the start value. -/
theorem scanSources_eq (l : List Source) (i : Nat) :
    scanSources l i =
      if l.all (fun s => chart_bearing s || _is_ref s) then .ok (chartIdxs l i)
      else .error invalidSourceMsg := by
  induction l generalizing i with
  | nil => simp [scanSources, chartIdxs]
  | cons s rest ih =>
    cases hc : chart_bearing s with
    | true =>
      have hc2 : (_is_helm_repo s || _is_helm_git s) = true := hc
      by_cases hall : rest.all (fun s => chart_bearing s || _is_ref s) = true
      · simp [scanSources, hc2, ih, hall, List.all_cons, chartIdxs, hc]
      · simp [scanSources, hc2, ih, hall, List.all_cons, chartIdxs, hc]
    | false =>
      have hc2 : (_is_helm_repo s || _is_helm_git s) = false := hc
      cases hr : _is_ref s with
      | true => simp [scanSources, hc2, hr, ih, List.all_cons, hc, chartIdxs]
      | false => simp [scanSources, hc2, hr, List.all_cons, hc]

/-- The chart-bearing index list has one entry per chart-bearing source. -/
theorem chartIdxs_length (l : List Source) (i : Nat) :
    (chartIdxs l i).length = (l.filter chart_bearing).length := by
  induction l generalizing i with
  | nil => simp [chartIdxs]
  | cons s rest ih =>
    cases hc : chart_bearing s with
    | true => simp [chartIdxs, hc, List.filter_cons, ih]
    | false => simp [chartIdxs, hc, List.filter_cons, ih]

/-- A well-formed entry passes the per-entry check of validate(). -/
theorem checkValueFile_of_good (keys : List String) (vf : String)
    (h : good_entry keys vf = true) : checkValueFile keys vf = .ok () := by
  unfold good_entry at h
  unfold checkValueFile
  cases hc : classifyEntry vf with
  | refPath n r =>
    rw [hc] at h
    have h2 : keys.contains n = true := h
    have h3 : n ∈ keys := by simpa using h2
    simp [h3]
  | noSlash =>
    rw [hc] at h
    exact absurd h (by simp)
  | noDollar =>
    rw [hc] at h
    exact absurd h (by simp)

/-- A violating entry fails the per-entry check of validate() with its
violation message. -/
theorem checkValueFile_of_bad (keys : List String) (vf : String)
    (h : good_entry keys vf = false) :
    checkValueFile keys vf = .error (vfViolationMsg keys vf) := by
  unfold good_entry at h
  unfold checkValueFile vfViolationMsg
  cases hc : classifyEntry vf with
  | refPath n r =>
    rw [hc] at h
    have h2 : keys.contains n = false := h
    have h3 : n ∉ keys := by simpa using h2
    simp [h3]
  | noSlash => simp
  | noDollar => simp

/-- The value-file loop of validate() reports the first violating entry and
passes when every entry is well formed. -/
theorem checkValueFiles_eq (keys : List String) (vfs : List String) :
    checkValueFiles keys vfs =
      match vfs.find? (fun vf => !(good_entry keys vf)) with
      | some vf => .error (vfViolationMsg keys vf)
      | none => .ok () := by
  induction vfs with
  | nil => simp [checkValueFiles]
  | cons vf rest ih =>
    cases hg : good_entry keys vf with
    | true =>
      rw [checkValueFiles, checkValueFile_of_good keys vf hg, ih]
      have : (fun vf => !(good_entry keys vf)) vf = false := by simp [hg]
      rw [List.find?_cons_of_neg _ (by simp [hg])]
    | false =>
      rw [checkValueFiles, checkValueFile_of_bad keys vf hg]
      rw [List.find?_cons_of_pos _ (by simp [hg])]

/-- Central refinement lemma: the source-translated validate() equals the
specification-side ordered rule chain validateSpec. -/
theorem validate_eq_validateSpec (app : ArgocdApplication) :
    validate app = validateSpec app := by
  simp only [validate, validateSpec, ref_keys]
  rw [scanSources_eq]
  by_cases h1 : app.kind.getD "" ≠ "Application"
  · simp only [rule_kind_invalid, if_pos h1]
  · simp only [rule_kind_invalid, if_neg h1]
    by_cases h2 : (refNamesOf app).dedup.length ≠ (refNamesOf app).length
    · simp only [rule_duplicate_refs, if_pos h2]
    · simp only [rule_duplicate_refs, if_neg h2]
      by_cases h3 : app.sources.all (fun s => chart_bearing s || _is_ref s) = true
      · have hnr3 : ¬ rule_invalid_source app := by
          rw [List.all_eq_true] at h3
          rintro ⟨s, hs, hcf, hrf⟩
          have hb := h3 s hs
          rw [hcf, hrf] at hb
          simp at hb
        simp only [if_pos h3, if_neg hnr3]
        rw [chartIdxs_length]
        by_cases h4 : (app.sources.filter chart_bearing).length = 0
        · simp only [rule_no_chart, if_pos h4]
        · simp only [rule_no_chart, if_neg h4]
          by_cases h5 : 1 < (app.sources.filter chart_bearing).length
          · simp only [rule_multiple_charts, if_pos h5]
          · simp only [rule_multiple_charts, if_neg h5]
            by_cases h6 : get_all_ref_sources app ≠ [] ∧ get_helm_value_files app ≠ []
            · simp only [if_pos h6]
              rw [checkValueFiles_eq]
              cases hf : (get_helm_value_files app).find?
                  (fun vf => !(good_entry ((get_all_ref_sources app).map Prod.fst) vf)) with
              | some vf =>
                have hr6 : rule_value_files_inconsistent app := by
                  refine ⟨h6.1, h6.2, vf, List.mem_of_find?_eq_some hf, ?_⟩
                  have hp := List.find?_some hf
                  simpa [ref_keys] using hp
                simp only [if_pos hr6, firstBadVfMsg, ref_keys, hf]
              | none =>
                have hnr6 : ¬ rule_value_files_inconsistent app := by
                  rintro ⟨-, -, vf, hmem, hbad⟩
                  have hq := List.find?_eq_none.mp hf vf hmem
                  rw [ref_keys] at hbad
                  rw [hbad] at hq
                  simp at hq
                simp only [if_neg hnr6, hf]
            · simp only [if_neg h6]
              have hnr6 : ¬ rule_value_files_inconsistent app := fun hc => h6 ⟨hc.1, hc.2.1⟩
              simp only [if_neg hnr6]
      · have hr3 : rule_invalid_source app := by
          simp only [List.all_eq_true, not_forall] at h3
          obtain ⟨s, hs, hbad⟩ := h3
          refine ⟨s, hs, ?_⟩
          have hb : (chart_bearing s || _is_ref s) = false := by
            cases hval : (chart_bearing s || _is_ref s) with
            | true => exact absurd hval hbad
            | false => rfl
          simpa [Bool.or_eq_false_iff] using hb
        simp only [if_neg h3, if_pos hr3]

/-- The ordered rule chain passes exactly when no rule is violated. -/
theorem validateSpec_ok_iff (app : ArgocdApplication) :
    validateSpec app = .ok () ↔
      (¬ rule_kind_invalid app ∧ ¬ rule_duplicate_refs app ∧ ¬ rule_invalid_source app ∧
        ¬ rule_no_chart app ∧ ¬ rule_multiple_charts app ∧ ¬ rule_value_files_inconsistent app) := by
  unfold validateSpec
  split_ifs with a b c d e f <;> simp_all

/-- The state-passing rendering of validate() returns the outcome of the
pure rendering together with the unchanged object. -/
theorem validateSt_eq (app : ArgocdApplication) : validateSt app = (validate app, app) := by
  simp only [validateSt, validate]
  by_cases h1 : app.kind.getD "" ≠ "Application"
  · simp [h1]
  · simp only [if_neg h1]
    by_cases h2 : (refNamesOf app).dedup.length ≠ (refNamesOf app).length
    · simp [h2]
    · simp only [if_neg h2]
      cases hs : scanSources app.sources 0 with
      | error e => simp
      | ok idxs =>
        by_cases h4 : idxs.length = 0
        · simp [h4]
        · simp only [if_neg h4]
          by_cases h5 : 1 < idxs.length
          · simp [h5]
          · simp only [if_neg h5]
            by_cases h6 : get_all_ref_sources app ≠ [] ∧ get_helm_value_files app ≠ []
            · simp [h6]
            · simp [h6]

/-- Claim C1: for every parsed Application document, validate() is
fail-fast in the fixed priority order kind check, duplicate ref names,
per-source shape, zero charts, multiple charts, valueFiles consistency:
validate equals the specification-side chain validateSpec, which checks
rule_kind_invalid, rule_duplicate_refs, rule_invalid_source,
rule_no_chart, rule_multiple_charts and rule_value_files_inconsistent in
that order, reports only the first violated rule, and returns without
error exactly when none is violated. -/
theorem C1_validate_fail_fast_priority (app : ArgocdApplication) :
    validate app = validateSpec app :=
  validate_eq_validateSpec app

/-- Claim C9: validate() is idempotent and side-effect free. In the
state-passing rendering validateSt, the returned object state equals the
input state, a second call on the returned state yields the same outcome,
and the outcome agrees with the pure rendering, so every accessor result
observable after a call is unchanged. -/
theorem C9_validate_idempotent (app : ArgocdApplication) :
    (validateSt app).2 = app ∧
      (validateSt ((validateSt app).2)).1 = (validateSt app).1 ∧
      (validateSt app).1 = validate app := by
  rw [validateSt_eq]
  simp [validateSt_eq]

/-- When every entry is resolvable, the resolver succeeds and maps each
entry to its joined path, in order. -/
theorem apply_ref_mapping_ok_of_good (vfs : List String) (m : List (String × String))
    (h : ∀ vf ∈ vfs, good_map_entry m vf = true) :
    apply_ref_mapping_to_value_files vfs m = .ok (vfs.map (resolve_entry m)) := by
  induction vfs with
  | nil => simp [apply_ref_mapping_to_value_files]
  | cons vf rest ih =>
    have hh := h vf (by simp)
    unfold good_map_entry at hh
    unfold apply_ref_mapping_to_value_files
    cases hc : classifyEntry vf with
    | refPath n r =>
      rw [hc] at hh
      have hh2 : (m.lookup n).isSome = true := hh
      cases hl : m.lookup n with
      | none => rw [hl] at hh2; simp at hh2
      | some base =>
        rw [ih (fun w hw => h w (by simp [hw]))]
        simp [resolve_entry, hc, hl]
    | noSlash => rw [hc] at hh; cases hh
    | noDollar => rw [hc] at hh; cases hh

/-- A run of resolvable entries at the front passes through the resolver,
which then continues with the remaining entries. -/
theorem apply_ref_mapping_append_good (pre rest : List String) (m : List (String × String))
    (h : ∀ vf ∈ pre, good_map_entry m vf = true) :
    apply_ref_mapping_to_value_files (pre ++ rest) m =
      match apply_ref_mapping_to_value_files rest m with
      | .ok t => .ok (pre.map (resolve_entry m) ++ t)
      | .error e => .error e := by
  induction pre with
  | nil =>
    simp only [List.nil_append, List.map_nil]
    cases apply_ref_mapping_to_value_files rest m <;> simp
  | cons vf p ih =>
    have hh := h vf (by simp)
    unfold good_map_entry at hh
    rw [List.cons_append]
    rw [apply_ref_mapping_to_value_files]
    cases hc : classifyEntry vf with
    | refPath n r =>
      rw [hc] at hh
      have hh2 : (m.lookup n).isSome = true := hh
      cases hl : m.lookup n with
      | none => rw [hl] at hh2; simp at hh2
      | some base =>
        rw [ih (fun w hw => h w (by simp [hw]))]
        cases hres : apply_ref_mapping_to_value_files rest m with
        | ok t => simp [resolve_entry, hc, hl, hres]
        | error e => simp [resolve_entry, hc, hl, hres]
    | noSlash => rw [hc] at hh; cases hh
    | noDollar => rw [hc] at hh; cases hh

/-- Claim C2: resolution of value files against a mapping. When every
entry has the dollar-name-slash-path form with its name in the mapping,
resolution succeeds with exactly one output per entry in declaration
order, the output for each entry being the mapped base of its name joined
with its relative path; the first entry whose name is missing from the
mapping fails with the message naming both the ref and the full entry; the
first malformed entry (no dollar marker, or no slash after the name) fails
with the message identifying the entry. -/
theorem C2_value_file_resolution (value_files : List String) (ref_mapping : List (String × String)) :
    ((∀ vf ∈ value_files, good_map_entry ref_mapping vf = true) →
      apply_ref_mapping_to_value_files value_files ref_mapping =
        .ok (value_files.map (resolve_entry ref_mapping))) ∧
    (∀ pre vf post n r, value_files = pre ++ vf :: post →
      (∀ w ∈ pre, good_map_entry ref_mapping w = true) →
      classifyEntry vf = .refPath n r →
      ref_mapping.lookup n = none →
      apply_ref_mapping_to_value_files value_files ref_mapping =
        .error (refNotFoundMsg n vf)) ∧
    (∀ pre vf post, value_files = pre ++ vf :: post →
      (∀ w ∈ pre, good_map_entry ref_mapping w = true) →
      classifyEntry vf = .noSlash →
      apply_ref_mapping_to_value_files value_files ref_mapping =
        .error (refPathExpectedMsg vf)) ∧
    (∀ pre vf post, value_files = pre ++ vf :: post →
      (∀ w ∈ pre, good_map_entry ref_mapping w = true) →
      classifyEntry vf = .noDollar →
      apply_ref_mapping_to_value_files value_files ref_mapping =
        .error (shouldStartMsg vf)) := by
  refine ⟨fun h => apply_ref_mapping_ok_of_good value_files ref_mapping h, ?_, ?_, ?_⟩
  · intro pre vf post n r heq hpre hc hl
    subst heq
    rw [apply_ref_mapping_append_good pre (vf :: post) ref_mapping hpre]
    unfold apply_ref_mapping_to_value_files
    simp [hc, hl]
  · intro pre vf post heq hpre hc
    subst heq
    rw [apply_ref_mapping_append_good pre (vf :: post) ref_mapping hpre]
    unfold apply_ref_mapping_to_value_files
    simp [hc]
  · intro pre vf post heq hpre hc
    subst heq
    rw [apply_ref_mapping_append_good pre (vf :: post) ref_mapping hpre]
    unfold apply_ref_mapping_to_value_files
    simp [hc]

/-- Witness for claim C2 at a concrete input: two well-formed entries over
a one-entry mapping resolve in order to the joined paths. -/
theorem C2_witness :
    (∀ vf ∈ ["$v/one.yaml", "$v/two.yaml"], good_map_entry [("v", "/base")] vf = true) ∧
      apply_ref_mapping_to_value_files ["$v/one.yaml", "$v/two.yaml"] [("v", "/base")] =
        .ok ["/base/one.yaml", "/base/two.yaml"] :=
  ⟨by decide, (C2_value_file_resolution ["$v/one.yaml", "$v/two.yaml"] [("v", "/base")]).1 (by decide)⟩

/-- Splitting at the first slash of a slash-free run followed by a slash
yields exactly that run and the remainder. -/
theorem splitFirst_no_slash (a : List Char) (h : ('/' : Char) ∉ a) (b : List Char) :
    splitFirst (a ++ '/' :: b) = some (a, b) := by
  induction a with
  | nil => simp [splitFirst]
  | cons c t ih =>
    have hc : c ≠ '/' := fun hcc => h (by simp [hcc])
    have ht : ('/' : Char) ∉ t := fun htm => h (by simp [htm])
    simp [splitFirst, hc, ih ht]

/-- A dollar entry built from a slash-free name and a relative path
classifies as that reference and path. -/
theorem classifyEntry_dollar (n r : String) (h : ('/' : Char) ∉ n.data) :
    classifyEntry (String.mk ('$' :: (n.data ++ '/' :: r.data))) = .refPath n r := by
  unfold classifyEntry
  simp [splitFirst_no_slash n.data h r.data]

/-- Claim C3: a single reference source with no override maps its name to
the version-control root resolved for the working directory, a symbolic
value file over that name joins the root with its relative path, and when
the working directory is not inside a tracked repository the build fails
with the resolution error. -/
theorem C3_single_ref_uses_git_root (n u root emsg : String) (h : ('/' : Char) ∉ n.data) :
    build_ref_mapping [(n, u)] (.ok root) [] = .ok [(n, root)] ∧
      build_ref_mapping [(n, u)] (.error emsg) [] = .error emsg ∧
      apply_ref_mapping_to_value_files
          [String.mk ('$' :: (n.data ++ '/' :: "a.yaml".data))] [(n, root)] =
        .ok [pathJoin root "a.yaml"] := by
  refine ⟨by simp [build_ref_mapping], by simp [build_ref_mapping], ?_⟩
  unfold apply_ref_mapping_to_value_files
  rw [classifyEntry_dollar n "a.yaml" h]
  simp [apply_ref_mapping_to_value_files, List.lookup]

/-- Witness for claim C3 at a concrete input: the sole reference source
named values maps to the resolved root, the value file resolves under it,
and a failed root resolution propagates. -/
theorem C3_witness :
    (('/' : Char) ∉ "values".data) ∧
      build_ref_mapping [("values", "https://u")] (.ok "/repo") [] = .ok [("values", "/repo")] ∧
      build_ref_mapping [("values", "https://u")] (.error "not a git repository") [] =
        .error "not a git repository" ∧
      apply_ref_mapping_to_value_files
          [String.mk ('$' :: ("values".data ++ '/' :: "a.yaml".data))] [("values", "/repo")] =
        .ok [pathJoin "/repo" "a.yaml"] :=
  ⟨by decide, C3_single_ref_uses_git_root "values" "https://u" "/repo" "not a git repository" (by decide)⟩

/-- Folding Python dict insertion over pairs with pairwise-new keys appends
them in order. -/
theorem foldl_dictInsert_nodup (ov : List (String × String)) :
    ∀ acc : List (String × String), (ov.map Prod.fst).Nodup →
      (∀ p ∈ ov, ∀ q ∈ acc, p.1 ≠ q.1) →
      ov.foldl (fun m kv => dictInsert m kv.1 kv.2) acc = acc ++ ov := by
  induction ov with
  | nil => intro acc _ _; simp
  | cons kv rest ih =>
    intro acc hnd hdisj
    have hnew : acc.any (fun p => p.1 = kv.1) = false := by
      cases hval : acc.any (fun p => p.1 = kv.1) with
      | false => rfl
      | true =>
        rw [List.any_eq_true] at hval
        obtain ⟨q, hq, hqe⟩ := hval
        have := hdisj kv (by simp) q hq
        simp at hqe
        exact absurd hqe.symm (by simpa using this)
    have hstep : dictInsert acc kv.1 kv.2 = acc ++ [kv] := by
      unfold dictInsert
      rw [hnew]
      simp
    rw [List.foldl_cons, hstep]
    have hsplit : (∀ x : String, (kv.1, x) ∉ rest) ∧ (rest.map Prod.fst).Nodup := by
      simpa using hnd
    have hnd2 : (rest.map Prod.fst).Nodup := hsplit.2
    have hnotin : kv.1 ∉ rest.map Prod.fst := by
      intro hmem
      obtain ⟨q, hq, he⟩ := List.mem_map.mp hmem
      have hq2 : q = (kv.1, q.2) := by
        have he2 : q.1 = kv.1 := by simpa using he
        exact Prod.ext he2 rfl
      rw [hq2] at hq
      exact hsplit.1 q.2 hq
    have hdisj2 : ∀ p ∈ rest, ∀ q ∈ acc ++ [kv], p.1 ≠ q.1 := by
      intro p hp q hq
      rcases List.mem_append.mp hq with hq1 | hq2
      · exact hdisj p (by simp [hp]) q hq1
      · have hqkv : q = kv := by simpa using hq2
        subst hqkv
        intro he
        exact hnotin (by
          rw [← he]
          exact List.mem_map.mpr ⟨p, hp, rfl⟩)
    rw [ih (acc ++ [kv]) hnd2 hdisj2]
    simp

/-- Claim C4: with two or more reference sources and no override, the
build fails with the message naming every declared reference-source name;
with any sources and a non-empty override whose keys are distinct, the
build returns exactly the override pairs; with no reference sources the
build returns the empty mapping whatever the override. -/
theorem C4_build_ref_mapping_cases (ref_sources : List (String × String))
    (git : Except String String) (ov : List (String × String)) :
    (2 ≤ ref_sources.length →
      build_ref_mapping ref_sources git [] =
          .error (multipleRefSourcesMsg (ref_sources.map Prod.fst)) ∧
        ∀ name ∈ ref_sources.map Prod.fst,
          containsSubStr (multipleRefSourcesMsg (ref_sources.map Prod.fst)) name = true) ∧
    (ref_sources ≠ [] → ov ≠ [] → (ov.map Prod.fst).Nodup →
      build_ref_mapping ref_sources git ov = .ok ov) ∧
    build_ref_mapping [] git ov = .ok [] := by
  refine ⟨?_, ?_, rfl⟩
  · intro hlen
    cases ref_sources with
    | nil => simp at hlen
    | cons p rest =>
      have hrest : rest ≠ [] := by
        intro hr
        subst hr
        simp at hlen
      constructor
      · simp [build_ref_mapping, hrest]
      · intro name hname
        unfold multipleRefSourcesMsg containsSubStr
        rw [String.data_append, String.data_append]
        have hin := containsSubStr_joinComma ((p :: rest).map Prod.fst) name hname
        unfold containsSubStr at hin
        exact containsSubL_append_left _ _ _ (containsSubL_append_right _ _ _ hin)
  · intro hne hov hnd
    cases ref_sources with
    | nil => exact absurd rfl hne
    | cons p rest =>
      have hfold := foldl_dictInsert_nodup ov [] hnd (by simp)
      simp only [build_ref_mapping]
      rw [if_pos hov, hfold]
      simp

/-- Witness for claim C4 at concrete inputs: two sources without override
fail naming both, and a one-pair override is returned verbatim. -/
theorem C4_witness :
    (2 ≤ ([("a", "u"), ("b", "v")] : List (String × String)).length) ∧
      build_ref_mapping [("a", "u"), ("b", "v")] (.error "g") [] =
        .error (multipleRefSourcesMsg ["a", "b"]) ∧
      containsSubStr (multipleRefSourcesMsg ["a", "b"]) "b" = true ∧
      build_ref_mapping [("a", "u"), ("b", "v")] (.error "g") [("x", "/p")] = .ok [("x", "/p")] :=
  ⟨by decide,
    ((C4_build_ref_mapping_cases [("a", "u"), ("b", "v")] (.error "g") [("x", "/p")]).1
      (by decide)).1,
    ((C4_build_ref_mapping_cases [("a", "u"), ("b", "v")] (.error "g") [("x", "/p")]).1
      (by decide)).2 "b" (by decide),
    (C4_build_ref_mapping_cases [("a", "u"), ("b", "v")] (.error "g") [("x", "/p")]).2.1
      (by decide) (by decide) (by decide)⟩

/-- Claim C5: when reference sources exist and valueFiles is non-empty,
validate() succeeds only if every entry carries a declared symbolic
prefix; any entry without the dollar marker, with an undeclared name, or
without the slash-path segment makes validate() fail, at validation time,
with no reference mapping involved. The last part spells out that a
violating entry is exactly one of the three shapes the claim lists. -/
theorem C5_valuefiles_checked_at_validation (app : ArgocdApplication)
    (hr : get_all_ref_sources app ≠ []) (hv : get_helm_value_files app ≠ []) :
    (validate app = .ok () →
      ∀ vf ∈ get_helm_value_files app, good_entry (ref_keys app) vf = true) ∧
    ((∃ vf ∈ get_helm_value_files app, good_entry (ref_keys app) vf = false) →
      ∃ e, validate app = .error e) ∧
    (∀ vf : String, good_entry (ref_keys app) vf = false ↔
      (classifyEntry vf = .noDollar ∨ classifyEntry vf = .noSlash ∨
        ∃ n r, classifyEntry vf = .refPath n r ∧ (ref_keys app).contains n = false)) := by
  refine ⟨?_, ?_, ?_⟩
  · intro hok vf hmem
    rw [validate_eq_validateSpec] at hok
    have hnr6 := ((validateSpec_ok_iff app).mp hok).2.2.2.2.2
    by_contra hbad
    simp only [Bool.not_eq_true] at hbad
    exact hnr6 ⟨hr, hv, vf, hmem, hbad⟩
  · rintro ⟨vf, hmem, hbad⟩
    cases hval : validate app with
    | error e => exact ⟨e, rfl⟩
    | ok u =>
      cases u
      rw [validate_eq_validateSpec] at hval
      exact absurd ⟨hr, hv, vf, hmem, hbad⟩ ((validateSpec_ok_iff app).mp hval).2.2.2.2.2
  · intro vf
    unfold good_entry
    cases hc : classifyEntry vf with
    | refPath n r => simp
    | noSlash => simp
    | noDollar => simp

/-- Witness for claim C5 at a concrete input: an application declaring the
ref source values whose value file names the undeclared ref other fails
validation. -/
theorem C5_witness :
    get_all_ref_sources appBadRefVf ≠ [] ∧ get_helm_value_files appBadRefVf ≠ [] ∧
      (∃ vf ∈ get_helm_value_files appBadRefVf, good_entry (ref_keys appBadRefVf) vf = false) ∧
      ∃ e, validate appBadRefVf = .error e :=
  ⟨by decide, by decide, by decide,
    (C5_valuefiles_checked_at_validation appBadRefVf (by decide) (by decide)).2.1 (by decide)⟩

/-- Every successful run of the argument builder decomposes as the
release-name pair, then the optional CRD-skip flag, then one flag-path
pair per resolved value file. -/
theorem compute_ok_decompose (app : ArgocdApplication) (git : Except String String)
    (ov : List (String × String)) (out : List String)
    (h : compute_helm_args app git ov = .ok out) :
    ∃ resolved : List String,
      out = ["--release-name", release_name_rule app] ++
        (if get_helm_skip_crds app then ["--skip-crds"] else []) ++
        resolved.flatMap (fun p => ["-f", p]) := by
  unfold compute_helm_args at h
  cases hval : validate app with
  | error e => rw [hval] at h; simp at h
  | ok u =>
    cases u
    rw [hval] at h
    dsimp only at h
    cases hb : build_ref_mapping (get_all_ref_sources app) git ov with
    | error e => rw [hb] at h; simp at h
    | ok m =>
      rw [hb] at h
      dsimp only at h
      cases hvf : get_helm_value_files app with
      | nil =>
        rw [hvf] at h
        dsimp only at h
        refine ⟨[], ?_⟩
        have hout : (if get_helm_skip_crds app then
            ["--release-name", release_name_rule app] ++ ["--skip-crds"]
          else ["--release-name", release_name_rule app]) ++ [] = out := by
          simpa [release_name_rule] using h
        rw [← hout]
        cases hskip : get_helm_skip_crds app <;> simp
      | cons v vs =>
        rw [hvf] at h
        dsimp only at h
        cases happ : apply_ref_mapping_to_value_files (v :: vs) m with
        | error e => rw [happ] at h; simp at h
        | ok vres =>
          rw [happ] at h
          dsimp only at h
          refine ⟨vres, ?_⟩
          have hout : (if get_helm_skip_crds app then
              ["--release-name", release_name_rule app] ++ ["--skip-crds"]
            else ["--release-name", release_name_rule app]) ++
              vres.flatMap (fun p => ["-f", p]) = out := by
            simpa [release_name_rule] using h
          rw [← hout]
          cases hskip : get_helm_skip_crds app <;> simp

/-- Counterexample for claim C6 as stated: a validated application with
exactly one chart source, no reference sources and no value files, but
with skipCrds set, builds a three-element list, not exactly the
release-name pair. -/
theorem C6_counterexample :
    validate appSkipCrds = .ok () ∧
      get_all_ref_sources appSkipCrds = [] ∧
      get_helm_value_files appSkipCrds = [] ∧
      (appSkipCrds.sources.filter chart_bearing).length = 1 ∧
      compute_helm_args appSkipCrds (.ok "/gitroot") [] =
        .ok ["--release-name", "x", "--skip-crds"] ∧
      (["--release-name", "x", "--skip-crds"] : List String) ≠ ["--release-name", "x"] :=
  ⟨rfl, rfl, rfl, rfl, rfl, by decide⟩

/-- Claim C6 as amended: every successful build starts with exactly the
release-name pair, the name falling back from the helm releaseName to the
application name; and a validated application with no reference sources,
no value files and skipCrds unset builds exactly the release-name pair. -/
theorem C6_amended_release_name_first (app : ArgocdApplication)
    (git : Except String String) (ov : List (String × String)) :
    (∀ out, compute_helm_args app git ov = .ok out →
      out.take 2 = ["--release-name", release_name_rule app]) ∧
    (validate app = .ok () → get_all_ref_sources app = [] →
      get_helm_value_files app = [] → get_helm_skip_crds app = false →
      compute_helm_args app git ov = .ok ["--release-name", release_name_rule app]) := by
  constructor
  · intro out h
    obtain ⟨resolved, hout⟩ := compute_ok_decompose app git ov out h
    subst hout
    cases hskip : get_helm_skip_crds app <;> simp
  · intro h1 h2 h3 h4
    unfold compute_helm_args
    rw [h1]
    dsimp only
    rw [h2, h3, h4]
    simp [build_ref_mapping, release_name_rule]

/-- Witness for the amended claim C6 at a concrete input. -/
theorem C6_amended_witness :
    validate appPlain = .ok () ∧
      compute_helm_args appPlain (.ok "/gitroot") [] =
        .ok ["--release-name", release_name_rule appPlain] :=
  ⟨rfl, (C6_amended_release_name_first appPlain (.ok "/gitroot") []).2 rfl rfl rfl rfl⟩

/-- Value-file flag pairs never contain the CRD-skip flag when no resolved
path equals it. -/
theorem count_flatMap_skip_zero (l : List String) (h : ∀ p ∈ l, p ≠ "--skip-crds") :
    (l.flatMap (fun p => ["-f", p])).count "--skip-crds" = 0 := by
  induction l with
  | nil => simp
  | cons x xs ih =>
    have hx := h x (by simp)
    have hrest := ih (fun p hp => h p (by simp [hp]))
    rw [List.flatMap_cons, List.count_append, hrest]
    rw [List.count_cons, List.count_cons, List.count_nil]
    simp [hx, Ne.symm hx]

/-- Claim C7: every successful build decomposes as the release-name pair,
then the CRD-skip flag exactly when skipCrds holds, then the value-file
flag pairs; under the stated disjointness of the other strings from the
flag, the flag occurs exactly once when skipCrds holds and never
otherwise. -/
theorem C7_skip_crds_flag (app : ArgocdApplication) (git : Except String String)
    (ov : List (String × String)) (out : List String)
    (h : compute_helm_args app git ov = .ok out) :
    ∃ resolved : List String,
      out = ["--release-name", release_name_rule app] ++
        (if get_helm_skip_crds app then ["--skip-crds"] else []) ++
        resolved.flatMap (fun p => ["-f", p]) ∧
      (release_name_rule app ≠ "--skip-crds" →
        (∀ p ∈ resolved, p ≠ "--skip-crds") →
        out.count "--skip-crds" = if get_helm_skip_crds app then 1 else 0) := by
  obtain ⟨resolved, hout⟩ := compute_ok_decompose app git ov out h
  refine ⟨resolved, hout, ?_⟩
  intro hrn hres
  subst hout
  rw [List.count_append, List.count_append]
  have h1 : (["--release-name", release_name_rule app] : List String).count "--skip-crds" = 0 := by
    rw [List.count_cons, List.count_cons, List.count_nil]
    simp [hrn, Ne.symm hrn]
  rw [h1, count_flatMap_skip_zero resolved hres]
  cases hskip : get_helm_skip_crds app <;> simp

/-- Witness for claim C7 at a concrete input: the skipCrds application
builds the flag right after the release-name pair and counts it once. -/
theorem C7_witness :
    ∃ resolved : List String,
      (["--release-name", "x", "--skip-crds"] : List String) =
        ["--release-name", release_name_rule appSkipCrds] ++
          (if get_helm_skip_crds appSkipCrds then ["--skip-crds"] else []) ++
          resolved.flatMap (fun p => ["-f", p]) ∧
      (release_name_rule appSkipCrds ≠ "--skip-crds" →
        (∀ p ∈ resolved, p ≠ "--skip-crds") →
        (["--release-name", "x", "--skip-crds"] : List String).count "--skip-crds" =
          if get_helm_skip_crds appSkipCrds then 1 else 0) :=
  C7_skip_crds_flag appSkipCrds (.ok "/gitroot") [] ["--release-name", "x", "--skip-crds"] rfl

/-- Counterexample for claim C10 as stated: a validated application with
no reference sources and the single value file composed of a dollar sign
and a name without a slash makes the build fail with the ref/path-expected
message, which is not the not-found-in-mapping message: the not-found
messages all begin with the eleven characters of the other head shown
below. -/
theorem C10_counterexample :
    validate appNoSlashVf = .ok () ∧
      get_all_ref_sources appNoSlashVf = [] ∧
      get_helm_value_files appNoSlashVf ≠ [] ∧
      compute_helm_args appNoSlashVf (.ok "/gitroot") [] = .error (refPathExpectedMsg "$x") ∧
      refPathExpectedMsg "$x" ≠ refNotFoundMsg "x" "$x" ∧
      (refPathExpectedMsg "$x").data.take 11 ≠ ("Error: Ref ").data ∧
      (refNotFoundMsg "x" "$x").data.take 11 = ("Error: Ref ").data :=
  ⟨rfl, rfl, by decide, rfl, by decide, by decide, by decide⟩

/-- Claim C10 as amended: for every validated application with no
reference sources but a non-empty valueFiles list, the build always
fails: the empty mapping rejects the first entry, a plain entry with the
should-start-with-mapping message, a well-shaped dollar entry with the
not-found-in-mapping message, and a dollar entry without a slash with the
ref/path-expected message; no plain path is ever passed through. -/
theorem C10_amended_no_refs_always_fail (app : ArgocdApplication)
    (git : Except String String) (ov : List (String × String)) (vf : String)
    (rest : List String) (h1 : validate app = .ok ())
    (h2 : get_all_ref_sources app = []) (h3 : get_helm_value_files app = vf :: rest) :
    (∃ e, compute_helm_args app git ov = .error e) ∧
    (classifyEntry vf = .noDollar →
      compute_helm_args app git ov = .error (shouldStartMsg vf)) ∧
    (classifyEntry vf = .noSlash →
      compute_helm_args app git ov = .error (refPathExpectedMsg vf)) ∧
    (∀ n r, classifyEntry vf = .refPath n r →
      compute_helm_args app git ov = .error (refNotFoundMsg n vf)) := by
  have hcompute : compute_helm_args app git ov =
      match classifyEntry vf with
      | .refPath n _ => .error (refNotFoundMsg n vf)
      | .noSlash => .error (refPathExpectedMsg vf)
      | .noDollar => .error (shouldStartMsg vf) := by
    unfold compute_helm_args
    rw [h1]
    dsimp only
    rw [h2]
    simp only [build_ref_mapping]
    rw [h3]
    dsimp only
    rw [apply_ref_mapping_to_value_files]
    cases hc : classifyEntry vf with
    | refPath n r => simp [List.lookup]
    | noSlash => simp
    | noDollar => simp
  refine ⟨?_, ?_, ?_, ?_⟩
  · cases hc : classifyEntry vf with
    | refPath n r => exact ⟨refNotFoundMsg n vf, by rw [hcompute, hc]⟩
    | noSlash => exact ⟨refPathExpectedMsg vf, by rw [hcompute, hc]⟩
    | noDollar => exact ⟨shouldStartMsg vf, by rw [hcompute, hc]⟩
  · intro hc; rw [hcompute, hc]
  · intro hc; rw [hcompute, hc]
  · intro n r hc; rw [hcompute, hc]

/-- Witness for the amended claim C10 at a concrete input: a plain value
file with no reference sources makes the build fail with the
should-start-with-mapping message. -/
theorem C10_amended_witness :
    (∃ e, compute_helm_args appPlainVf (.ok "/gitroot") [] = .error e) ∧
      compute_helm_args appPlainVf (.ok "/gitroot") [] =
        .error (shouldStartMsg "values.yaml") :=
  ⟨(C10_amended_no_refs_always_fail appPlainVf (.ok "/gitroot") [] "values.yaml" [] rfl rfl rfl).1,
    (C10_amended_no_refs_always_fail appPlainVf (.ok "/gitroot") [] "values.yaml" [] rfl rfl rfl).2.1
      rfl⟩

/-- Claim C8: constructing the application model fails with a structure
error (a construction-time ValueError) for every mapping document whose
spec section is absent, or is a mapping missing both the sources and the
source key, or holds a sources value that is not a sequence, or holds no
sources key and a source value that is not a mapping; construction never
succeeds on such a document. -/
theorem C8_structure_errors (kvs : List (String × Yaml))
    (h : kvs.lookup "spec" = none
      ∨ (∃ skvs, kvs.lookup "spec" = some (.dict skvs) ∧
          skvs.lookup "sources" = none ∧ skvs.lookup "source" = none)
      ∨ (∃ skvs v, kvs.lookup "spec" = some (.dict skvs) ∧
          skvs.lookup "sources" = some v ∧ v.isArr = false)
      ∨ (∃ skvs v, kvs.lookup "spec" = some (.dict skvs) ∧
          skvs.lookup "sources" = none ∧ skvs.lookup "source" = some v ∧
          v.isDict = false)) :
    ∃ msg, mkArgocdApplication (.dict kvs) = .error (.valueError msg) := by
  unfold mkArgocdApplication
  rcases h with h1 | ⟨skvs, hs, hno1, hno2⟩ | ⟨skvs, v, hs, hsome, harr⟩ |
    ⟨skvs, v, hs, hnone, hsomev, hdict⟩
  · exact ⟨"Invalid application.yaml: missing \x27spec\x27 section", by simp [h1]⟩
  · exact ⟨"Invalid application.yaml: missing \x27sources\x27 or \x27source\x27 in spec",
      by simp [hs, pyIn, hno1, hno2]⟩
  · refine ⟨"Invalid application.yaml: \x27sources\x27 must be a list", ?_⟩
    simp only [hs, pyIn, Option.isNone_some, Bool.false_eq_true, if_false, Option.getD_some,
      Option.isSome_some, Bool.not_true, Bool.false_and, Bool.and_false]
    cases v <;> simp_all [Yaml.isArr, hsome]
  · refine ⟨"Invalid application.yaml: \x27source\x27 must be a dict", ?_⟩
    cases v with
    | dict dv => simp [Yaml.isDict] at hdict
    | null => simp [hs, pyIn, hnone, hsomev]
    | bool b => simp [hs, pyIn, hnone, hsomev]
    | str s2 => simp [hs, pyIn, hnone, hsomev]
    | num n2 => simp [hs, pyIn, hnone, hsomev]
    | arr xs => simp [hs, pyIn, hnone, hsomev]

/-- Witness for claim C8 at a concrete input: a document whose spec is an
empty mapping fails construction with a ValueError. -/
theorem C8_witness :
    ∃ msg, mkArgocdApplication (.dict [("spec", .dict [])]) = .error (.valueError msg) :=
  C8_structure_errors [("spec", Yaml.dict [])] (Or.inr (Or.inl ⟨[], rfl, rfl, rfl⟩))
